import Mathlib

/-!
Verification development for the Neurcode core: the unified diff parser
(`parseDiff`) and the policy engine (`evaluateRules`, policy management).
The definitions below are shallow embeddings of the TypeScript sources in
`packages/diff-parser` and `packages/policy-engine`.

The original parser mutates `currentFile` and `currentHunk` objects after
pushing references to them into result arrays.  To embed that reference
semantics faithfully in a pure language, pushed-but-still-live objects are
represented as `none` placeholders (aliases of the live object) that are
resolved to the live object value at the moment the live object is
replaced or at end of input.
-/

namespace Neurcode

/-- `ChangeType` of the diff parser. -/
inductive ChangeType
  | add | delete | modify | rename
  deriving DecidableEq, Repr

/-- Kind of one diff line: `context`, `added`, or `removed`. -/
inductive LineType
  | context | added | removed
  deriving DecidableEq, Repr

/-- One classified line inside a hunk (the optional lineNumber field of the
source is never written by `parseDiff`, so it is omitted). -/
structure DiffLine where
  type : LineType
  content : String
  deriving DecidableEq, Repr

/-- One hunk: header numbers plus the ordered classified lines. -/
structure DiffHunk where
  oldStart : Nat
  oldLines : Nat
  newStart : Nat
  newLines : Nat
  lines : List DiffLine
  deriving DecidableEq, Repr

/-- One parsed file record. -/
structure DiffFile where
  path : String
  oldPath : Option String
  changeType : ChangeType
  addedLines : Nat
  removedLines : Nat
  hunks : List DiffHunk
  deriving DecidableEq, Repr

/-- A raw input line, as a character list. -/
abbrev Line := List Char

/-- JavaScript `text.split('\n')`. -/
def splitLines : List Char → List (List Char)
  | [] => [[]]
  | c :: cs =>
    if c = '\n' then [] :: splitLines cs
    else
      match splitLines cs with
      | l :: ls => (c :: l) :: ls
      | [] => [[c]]

/-- JavaScript `line.startsWith(p)`. -/
def startsWithL (p : String) (l : Line) : Bool :=
  p.toList.isPrefixOf l

/-- Scanner for the lazy groups of `^diff --git a\/(.+?) b\/(.+?)$`:
the old path is the shortest nonempty chunk followed by a literal
separator `\x20b/` with at least one character remaining after it. -/
def findSep (accRev : List Char) : List Char → Option (String × String)
  | [] => none
  | c :: cs =>
    match cs with
    | ' ' :: 'b' :: '/' :: (r :: rs) =>
      some (((c :: accRev).reverse).asString, ((r :: rs)).asString)
    | _ => findSep (c :: accRev) cs

/-- The file-header regex `^diff --git a\/(.+?) b\/(.+?)$` of the source. -/
def parseFileHeader (l : Line) : Option (String × String) :=
  if startsWithL "diff --git a/" l then
    findSep [] (l.drop 13)
  else none

/-- Greedy `\d+`. -/
def takeDigits : List Char → List Char × List Char
  | [] => ([], [])
  | c :: cs =>
    if c.isDigit then
      match takeDigits cs with
      | (ds, r) => (c :: ds, r)
    else ([], c :: cs)

/-- Digits to the number `parseInt` returns on them. -/
def digitsToNat (ds : List Char) : Nat :=
  ds.foldl (fun n c => n * 10 + (c.toNat - 48)) 0

/-- The optional group `(?:,(\d+))?`. -/
def parseOptComma (l : List Char) : Option Nat × List Char :=
  match l with
  | ',' :: rest =>
    match takeDigits rest with
    | ([], _) => (none, l)
    | (ds, r) => (some (digitsToNat ds), r)
  | _ => (none, l)

/-- The hunk-header regex `^@@ -(\d+)(?:,(\d+))? \+(\d+)(?:,(\d+))? @@`
of the source; omitted counts default to 0. -/
def parseHunkHeader (l : Line) : Option (Nat × Nat × Nat × Nat) :=
  match l with
  | '@' :: '@' :: ' ' :: '-' :: rest =>
    match takeDigits rest with
    | ([], _) => none
    | (ds1, r1) =>
      match parseOptComma r1 with
      | (o2, r2) =>
        match r2 with
        | ' ' :: '+' :: r3 =>
          match takeDigits r3 with
          | ([], _) => none
          | (ds3, r4) =>
            match parseOptComma r4 with
            | (o4, r5) =>
              match r5 with
              | ' ' :: '@' :: '@' :: _ =>
                some (digitsToNat ds1, o2.getD 0, digitsToNat ds3, o4.getD 0)
              | _ => none
        | _ => none
  | _ => none

/-- The in-progress file record: its `hunks` list may hold `none` entries,
each an alias of the live `currentHunk` object (a hunk that was pushed but
is still being mutated, exactly as in the reference-based source). -/
structure PFile where
  path : String
  oldPath : Option String
  changeType : ChangeType
  addedLines : Nat
  removedLines : Nat
  hunks : List (Option DiffHunk)
  deriving DecidableEq, Repr

/-- Parser state: result list (with `none` aliases of the live file),
the live file record, and the live hunk record. -/
structure PState where
  files : List (Option DiffFile)
  currentFile : Option PFile
  currentHunk : Option DiffHunk
  deriving DecidableEq, Repr

/-- Filler used for alias slots that can never occur in reachable states. -/
def emptyHunk : DiffHunk := ⟨0, 0, 0, 0, []⟩

/-- Filler used for alias slots that can never occur in reachable states. -/
def emptyFile : DiffFile := ⟨"", none, ChangeType.modify, 0, 0, []⟩

/-- Value of the live file record at this instant, with its hunk aliases
resolved to the live hunk value. -/
def materializeFile (f : PFile) (h : Option DiffHunk) : DiffFile :=
  ⟨f.path, f.oldPath, f.changeType, f.addedLines, f.removedLines,
    f.hunks.map (fun o => o.getD (h.getD emptyHunk))⟩

/-- Resolve all file aliases in the result list to the current value of the
live file record. -/
def resolveFiles (files : List (Option DiffFile)) (cf : Option PFile)
    (ch : Option DiffHunk) : List DiffFile :=
  files.map (fun o =>
    o.getD (match cf with
            | some f => materializeFile f ch
            | none => emptyFile))

/-- Freeze the hunk aliases of a file at the current live hunk value (used
when `currentHunk` is about to be reassigned). -/
def sealHunks (f : PFile) (ch : Option DiffHunk) : PFile :=
  { f with hunks := f.hunks.map (fun o => some (o.getD (ch.getD emptyHunk))) }

/-- Build the new file record from the captured header paths, with the
changeType precedence of the source. -/
def newPFile (oldP newP : String) : PFile :=
  let changeType :=
    if oldP = "/dev/null" ∨ oldP = "a" then ChangeType.add
    else if newP = "/dev/null" ∨ newP = "b" then ChangeType.delete
    else if oldP ≠ newP then ChangeType.rename
    else ChangeType.modify
  { path := if changeType = ChangeType.delete then oldP else newP
    oldPath :=
      if oldP ≠ newP ∧ changeType ≠ ChangeType.add ∧ changeType ≠ ChangeType.delete
      then some oldP else none
    changeType := changeType
    addedLines := 0
    removedLines := 0
    hunks := [] }

/-- On a `diff --git` line: if both a file and a hunk are open, push the hunk
into the file and the file into the result list (as aliases of the still-live
objects, mirroring the reference pushes of the source). -/
def flushForFileHeader (st : PState) : PState :=
  match st.currentFile, st.currentHunk with
  | some f, some _ =>
    { files := st.files ++ [none]
      currentFile := some { f with hunks := f.hunks ++ [none] }
      currentHunk := st.currentHunk }
  | _, _ => st

/-- On a `@@` line: if both a file and a hunk are open, push the hunk into the
file (as an alias; the source does not reset `currentHunk` here). -/
def flushHunkAlias (st : PState) : PState :=
  match st.currentFile, st.currentHunk with
  | some f, some _ =>
    { st with currentFile := some { f with hunks := f.hunks ++ [none] } }
  | _, _ => st

/-- One iteration of the `while` loop of `parseDiff`, on one input line. -/
def step (st : PState) (line : Line) : PState :=
  if startsWithL "diff --git" line then
    let st1 := flushForFileHeader st
    match parseFileHeader line with
    | some (oldP, newP) =>
      { files := (resolveFiles st1.files st1.currentFile st1.currentHunk).map some
        currentFile := some (newPFile oldP newP)
        currentHunk := none }
    | none => st1
  else if startsWithL "index " line then st
  else if startsWithL "new file mode" line then
    match st.currentFile with
    | some f => { st with currentFile := some { f with changeType := ChangeType.add } }
    | none => st
  else if startsWithL "deleted file mode" line then
    match st.currentFile with
    | some f => { st with currentFile := some { f with changeType := ChangeType.delete } }
    | none => st
  else if startsWithL "rename from" line then st
  else if startsWithL "rename to" line then st
  else if startsWithL "@@" line then
    let st1 := flushHunkAlias st
    match parseHunkHeader line with
    | some (os, ol, ns, nl) =>
      match st1.currentFile with
      | some f =>
        { st1 with
          currentFile := some (sealHunks f st1.currentHunk)
          currentHunk := some ⟨os, ol, ns, nl, []⟩ }
      | none => st1
    | none => st1
  else
    match st.currentFile, st.currentHunk with
    | some f, some h =>
      if startsWithL "+" line && !startsWithL "+++" line then
        { st with
          currentHunk := some { h with lines := h.lines ++ [⟨LineType.added, (line.drop 1).asString⟩] }
          currentFile := some { f with addedLines := f.addedLines + 1 } }
      else if startsWithL "-" line && !startsWithL "---" line then
        { st with
          currentHunk := some { h with lines := h.lines ++ [⟨LineType.removed, (line.drop 1).asString⟩] }
          currentFile := some { f with removedLines := f.removedLines + 1 } }
      else if startsWithL " " line then
        { st with
          currentHunk := some { h with lines := h.lines ++ [⟨LineType.context, (line.drop 1).asString⟩] } }
      else st
    | _, _ => st

/-- End of input: push the open hunk and the open file, then resolve all
aliases to the final values of the live objects. -/
def finalize (st : PState) : List DiffFile :=
  let st1 := flushHunkAlias st
  let files2 :=
    match st1.currentFile with
    | some _ => st1.files ++ [none]
    | none => st1.files
  resolveFiles files2 st1.currentFile st1.currentHunk

/-- `parseDiff` of the source: split on newlines, run the line loop, flush. -/
def parseDiff (text : String) : List DiffFile :=
  finalize ((splitLines text.toList).foldl step ⟨[], none, none⟩)

/-- All classified lines of a file, across its hunks in order. -/
def hunkLines (f : DiffFile) : List DiffLine :=
  (f.hunks.map DiffHunk.lines).join

/-- Number of added-kind lines across the hunks of a file. -/
def countAdded (f : DiffFile) : Nat :=
  ((hunkLines f).filter (fun l => decide (l.type = LineType.added))).length

/-- Number of removed-kind lines across the hunks of a file. -/
def countRemoved (f : DiffFile) : Nat :=
  ((hunkLines f).filter (fun l => decide (l.type = LineType.removed))).length

/-! ## Policy engine: types (`packages/policy-engine/src/types.ts`) -/

/-- Severity of a rule or violation. -/
inductive Severity
  | allow | warn | block
  deriving DecidableEq, Repr

/-- Overall decision of an evaluation. -/
inductive Decision
  | allow | warn | block
  deriving DecidableEq, Repr

/-- `matchType` of a path-pattern rule (`include`/`exclude` in the source;
renamed because `include` is a keyword here). -/
inductive PathMatchType
  | incl | excl
  deriving DecidableEq, Repr

/-- `matchType` of a line-pattern rule. -/
inductive LineMatchType
  | added | removed | both
  deriving DecidableEq, Repr

/-- The kind-specific configuration of the discriminated rule union. -/
inductive RuleConfig
  | sensitiveFile (patterns : List String)
  | largeChange (threshold : Nat)
  | suspiciousKeywords (keywords : List String)
  | potentialSecret (patterns : List String)
  | largeMigration (threshold : Nat) (migrationPatterns : List String)
  | pathPattern (pattern : String) (matchType : PathMatchType)
  | linePattern (pattern : String) (matchType : LineMatchType)
  | fileSize (maxSize : Nat)
  | custom (evaluator : String) (config : List (String × String))
  deriving DecidableEq, Repr

/-- A rule: the BaseRule fields plus the kind-specific configuration. -/
structure Rule where
  id : String
  name : String
  description : Option String
  enabled : Bool
  severity : Severity
  config : RuleConfig
  deriving DecidableEq, Repr

/-- One recorded violation (the optional line/column fields are never set
by the evaluator). -/
structure RuleViolation where
  rule : String
  file : String
  severity : Severity
  message : Option String
  line : Option Nat
  column : Option Nat
  deriving DecidableEq, Repr

/-- Result of `evaluateRules`. -/
structure RuleResult where
  decision : Decision
  violations : List RuleViolation
  deriving DecidableEq, Repr

/-- A policy document. -/
structure Policy where
  id : String
  name : String
  description : Option String
  version : String
  rules : List Rule
  createdAt : Option String
  updatedAt : Option String
  deriving DecidableEq, Repr

/-! ## Regular expressions

`new RegExp(p, 'i')` either throws a SyntaxError (invalid pattern) or
yields a matcher.  The engine is abstract: `compile` returns `none` for an
invalid pattern, `some m` with the case-insensitive match function
otherwise.  All evaluator theorems quantify over the engine. -/

/-- Abstract JavaScript regular-expression engine. -/
structure RegexEngine where
  compile : String → Option (String → Bool)

/-- The modelled SyntaxError thrown by `new RegExp` on an invalid pattern. -/
def regexCompileError : String := "SyntaxError: invalid regular expression"

/-- Compile a list of patterns, failing at the first invalid one (this is
what `patterns.map(p => new RegExp(p, 'i'))` does). -/
def compileAll (e : RegexEngine) : List String → Except String (List (String → Bool))
  | [] => Except.ok []
  | p :: ps =>
    match e.compile p with
    | none => Except.error regexCompileError
    | some m =>
      match compileAll e ps with
      | Except.error msg => Except.error msg
      | Except.ok ms => Except.ok (m :: ms)

/-! ## Policy engine: evaluator (`packages/policy-engine/src/evaluator.ts`) -/

/-- JavaScript `rule.description || dflt` (an empty string is falsy). -/
def strOrElse (d : Option String) (dflt : String) : String :=
  match d with
  | some s => if s = "" then dflt else s
  | none => dflt

/-- The violation object each matcher constructs. -/
def mkViolation (rule : Rule) (file : DiffFile) (msg : String) : RuleViolation :=
  ⟨rule.id, file.path, rule.severity, some msg, none, none⟩

/-- JavaScript `hay.includes(needle)` on character lists. -/
def containsSub (p : List Char) : List Char → Bool
  | [] => p.isEmpty
  | c :: cs => p.isPrefixOf (c :: cs) || containsSub p cs

/-- JavaScript `hay.includes(needle)`. -/
def strContains (hay needle : String) : Bool :=
  containsSub needle.toList hay.toList

/-- `line.substring(0, 50) + (line.length > 50 ? '...' : '')`. -/
def preview (l : String) : String :=
  l.take 50 ++ (if l.length > 50 then "..." else "")

/-- Content of the added-kind lines of a file, across its hunks. -/
def addedContents (file : DiffFile) : List String :=
  (((file.hunks.map DiffHunk.lines).join).filter
    (fun l => decide (l.type = LineType.added))).map DiffLine.content

/-- `evaluateSensitiveFileRule`. -/
def evaluateSensitiveFileRule (e : RegexEngine) (rule : Rule) (patterns : List String)
    (file : DiffFile) : Except String (List RuleViolation) :=
  match compileAll e patterns with
  | Except.error msg => Except.error msg
  | Except.ok compiled =>
    if compiled.any (fun m => m file.path) then
      Except.ok [mkViolation rule file
        (strOrElse rule.description "Modification of sensitive file detected")]
    else Except.ok []

/-- `evaluateLargeChangeRule`. -/
def evaluateLargeChangeRule (rule : Rule) (threshold : Nat) (file : DiffFile) :
    Except String (List RuleViolation) :=
  if file.addedLines + file.removedLines > threshold then
    Except.ok [mkViolation rule file
      (strOrElse rule.description
        ("Large change detected: " ++ toString (file.addedLines + file.removedLines) ++
          " lines modified (threshold: " ++ toString threshold ++ ")"))]
  else Except.ok []

/-- `evaluateSuspiciousKeywordsRule`. -/
def evaluateSuspiciousKeywordsRule (rule : Rule) (keywords : List String)
    (file : DiffFile) : Except String (List RuleViolation) :=
  let addedContent := (addedContents file).map String.toLower
  let found := keywords.filter
    (fun keyword => addedContent.any (fun content => strContains content keyword.toLower))
  if found.length > 0 then
    Except.ok [mkViolation rule file
      (strOrElse rule.description
        ("Suspicious keywords found: " ++ String.intercalate ", " found))]
  else Except.ok []

/-- `evaluatePotentialSecretRule`. -/
def evaluatePotentialSecretRule (e : RegexEngine) (rule : Rule) (patterns : List String)
    (file : DiffFile) : Except String (List RuleViolation) :=
  match compileAll e patterns with
  | Except.error msg => Except.error msg
  | Except.ok compiled =>
    let found := ((addedContents file).filter
      (fun l => compiled.any (fun m => m l))).map preview
    if found.length > 0 then
      Except.ok [mkViolation rule file
        (strOrElse rule.description
          ("Potential secrets detected: " ++ toString found.length ++ " occurrence(s)"))]
    else Except.ok []

/-- `evaluateLargeMigrationRule`. -/
def evaluateLargeMigrationRule (e : RegexEngine) (rule : Rule) (threshold : Nat)
    (migrationPatterns : List String) (file : DiffFile) :
    Except String (List RuleViolation) :=
  match compileAll e migrationPatterns with
  | Except.error msg => Except.error msg
  | Except.ok compiled =>
    if compiled.any (fun m => m file.path) then
      if file.addedLines + file.removedLines > threshold then
        Except.ok [mkViolation rule file
          (strOrElse rule.description
            ("Large database migration detected: " ++
              toString (file.addedLines + file.removedLines) ++
              " lines (threshold: " ++ toString threshold ++ ")"))]
      else Except.ok []
    else Except.ok []

/-- `evaluatePathPatternRule`. -/
def evaluatePathPatternRule (e : RegexEngine) (rule : Rule) (pattern : String)
    (matchType : PathMatchType) (file : DiffFile) :
    Except String (List RuleViolation) :=
  match e.compile pattern with
  | none => Except.error regexCompileError
  | some m =>
    if (decide (matchType = PathMatchType.incl) && m file.path) ||
        (decide (matchType = PathMatchType.excl) && !m file.path) then
      Except.ok [mkViolation rule file
        (strOrElse rule.description ("File path matches pattern: " ++ pattern))]
    else Except.ok []

/-- `evaluateLinePatternRule`. -/
def evaluateLinePatternRule (e : RegexEngine) (rule : Rule) (pattern : String)
    (matchType : LineMatchType) (file : DiffFile) :
    Except String (List RuleViolation) :=
  match e.compile pattern with
  | none => Except.error regexCompileError
  | some m =>
    let linesToCheck := ((file.hunks.map DiffHunk.lines).join).filter
      (fun l =>
        match matchType with
        | LineMatchType.added => decide (l.type = LineType.added)
        | LineMatchType.removed => decide (l.type = LineType.removed)
        | LineMatchType.both => true)
    let found := (linesToCheck.filter (fun l => m l.content)).map
      (fun l => preview l.content)
    if found.length > 0 then
      Except.ok [mkViolation rule file
        (strOrElse rule.description
          ("Line pattern matched: " ++ toString found.length ++ " occurrence(s)"))]
    else Except.ok []

/-- `evaluateFileSizeRule`. -/
def evaluateFileSizeRule (rule : Rule) (maxSize : Nat) (file : DiffFile) :
    Except String (List RuleViolation) :=
  let fileSize := (((file.hunks.map DiffHunk.lines).join).filter
    (fun l => decide (l.type = LineType.added))).foldl
      (fun size l => size + l.content.length + 1) 0
  if fileSize > maxSize then
    Except.ok [mkViolation rule file
      (strOrElse rule.description
        ("File size exceeds limit: " ++ toString fileSize ++ " bytes (max: " ++
          toString maxSize ++ " bytes)"))]
  else Except.ok []

/-- `evaluateRule`: skip disabled rules, then dispatch by kind; the `custom`
kind is a no-op. -/
def evaluateRule (e : RegexEngine) (rule : Rule) (file : DiffFile) :
    Except String (List RuleViolation) :=
  if !rule.enabled then Except.ok []
  else
    match rule.config with
    | RuleConfig.sensitiveFile ps => evaluateSensitiveFileRule e rule ps file
    | RuleConfig.largeChange t => evaluateLargeChangeRule rule t file
    | RuleConfig.suspiciousKeywords ks => evaluateSuspiciousKeywordsRule rule ks file
    | RuleConfig.potentialSecret ps => evaluatePotentialSecretRule e rule ps file
    | RuleConfig.largeMigration t mp => evaluateLargeMigrationRule e rule t mp file
    | RuleConfig.pathPattern p mt => evaluatePathPatternRule e rule p mt file
    | RuleConfig.linePattern p mt => evaluateLinePatternRule e rule p mt file
    | RuleConfig.fileSize s => evaluateFileSizeRule rule s file
    | RuleConfig.custom _ _ => Except.ok []

/-- The inner rule loop of `evaluateRules` on one file, collecting the
per-rule violation lists in order; the first thrown error aborts. -/
def evalRulesForFile (e : RegexEngine) (file : DiffFile) :
    List Rule → Except String (List RuleViolation)
  | [] => Except.ok []
  | r :: rs =>
    match evaluateRule e r file with
    | Except.error msg => Except.error msg
    | Except.ok v =>
      match evalRulesForFile e file rs with
      | Except.error msg => Except.error msg
      | Except.ok rest => Except.ok (v ++ rest)

/-- The outer file loop of `evaluateRules` (file-major, rule-minor order). -/
def evalAllFiles (e : RegexEngine) (rules : List Rule) :
    List DiffFile → Except String (List RuleViolation)
  | [] => Except.ok []
  | f :: fs =>
    match evalRulesForFile e f rules with
    | Except.error msg => Except.error msg
    | Except.ok v =>
      match evalAllFiles e rules fs with
      | Except.error msg => Except.error msg
      | Except.ok rest => Except.ok (v ++ rest)

/-- `v.severity === 'block'`. -/
def sevIsBlock (v : RuleViolation) : Bool :=
  match v.severity with
  | Severity.block => true
  | _ => false

/-- `v.severity === 'warn'`. -/
def sevIsWarn (v : RuleViolation) : Bool :=
  match v.severity with
  | Severity.warn => true
  | _ => false

/-- The decision reduction of `evaluateRules`. -/
def mkDecision (violations : List RuleViolation) : Decision :=
  if violations.any sevIsBlock then Decision.block
  else if violations.any sevIsWarn then Decision.warn
  else Decision.allow

/-- `evaluateRules`. -/
def evaluateRules (e : RegexEngine) (diffFiles : List DiffFile) (rules : List Rule) :
    Except String RuleResult :=
  match evalAllFiles e rules diffFiles with
  | Except.error msg => Except.error msg
  | Except.ok violations => Except.ok ⟨mkDecision violations, violations⟩

/-! ## Policy management (`packages/policy-engine/src/policy.ts`) -/

/-- The raw `rules` field of a policy document before validation. -/
inductive RawRules
  | arr (rules : List Rule)
  | notArr
  deriving DecidableEq, Repr

/-- A policy document as supplied to `loadPolicy`, before validation.
String-valued fields model presence (`some`) versus absence (`none`). -/
structure RawPolicyDoc where
  id : Option String
  name : Option String
  description : Option String
  version : Option String
  rules : Option RawRules
  createdAt : Option String
  updatedAt : Option String
  deriving DecidableEq, Repr

/-- JavaScript truthiness of an optional string field (`undefined` and the
empty string are falsy). -/
def truthyStr : Option String → Bool
  | none => false
  | some s => !(decide (s = ""))

/-- `Array.isArray(data.rules)`. -/
def isArrayField : Option RawRules → Bool
  | some (RawRules.arr _) => true
  | _ => false

/-- The rules list the document carries (only read when it is an array). -/
def rulesField : Option RawRules → List Rule
  | some (RawRules.arr rs) => rs
  | _ => []

/-- The `data as Policy` result of `loadPolicy` on a validated document. -/
def docToPolicy (doc : RawPolicyDoc) : Policy :=
  ⟨doc.id.getD "", doc.name.getD "", doc.description, doc.version.getD "",
    rulesField doc.rules, doc.createdAt, doc.updatedAt⟩

/-- `loadPolicy`: structural validation, then the document itself. -/
def loadPolicy (doc : RawPolicyDoc) : Except String Policy :=
  if !truthyStr doc.id || !truthyStr doc.name || !truthyStr doc.version ||
      !isArrayField doc.rules then
    Except.error "Invalid policy format: missing required fields"
  else Except.ok (docToPolicy doc)

/-- `createPolicy` (`now` stands for the `new Date().toISOString()` value). -/
def createPolicy (id name : String) (rules : List Rule) (description : Option String)
    (version : String) (now : String) : Policy :=
  ⟨id, name, description, version, rules, some now, some now⟩

/-- The default rule catalogue (`default-rules.ts`). -/
def defaultRules : List Rule :=
  [ ⟨"sensitive-file-default", "Sensitive File Detection",
      some "Blocks modification of sensitive files like .env, .key, secrets files",
      true, Severity.block,
      RuleConfig.sensitiveFile
        ["\\.env$", "\\.env\\.", "secrets?\\.(json|yaml|yml|toml)$", "config/secrets?",
         "\\.pem$", "\\.key$", "\\.p12$", "\\.pfx$", "id_rsa$", "id_dsa$",
         "\\.credentials$", "\\.aws$", "\\.gcp$", "\\.azure$"]⟩,
    ⟨"large-change-default", "Large Change Warning",
      some "Warns on changes larger than 1000 lines of code",
      true, Severity.warn, RuleConfig.largeChange 1000⟩,
    ⟨"suspicious-keywords-default", "Suspicious Keywords Detection",
      some "Warns on potentially dangerous code patterns",
      true, Severity.warn,
      RuleConfig.suspiciousKeywords
        ["eval(", "exec(", "dangerouslySetInnerHTML", "innerHTML", "document.write",
         "Function(", "setTimeout(", "setInterval(", "XMLHttpRequest", "fetch(",
         "localStorage", "sessionStorage", "cookie", "document.cookie"]⟩,
    ⟨"potential-secret-default", "Potential Secret Detection",
      some "Blocks potential secrets like API keys, passwords, tokens",
      true, Severity.block,
      RuleConfig.potentialSecret
        ["(?:api[_-]?key|apikey)\\s*[=:]\\s*['\"]?[a-zA-Z0-9_-]\x7b20,\x7d['\"]?",
         "(?:secret|password|passwd|pwd)\\s*[=:]\\s*['\"]?[a-zA-Z0-9_-]\x7b12,\x7d['\"]?",
         "(?:token|bearer)\\s+[a-zA-Z0-9_-]\x7b20,\x7d",
         "(?:aws[_-]?access[_-]?key[_-]?id|aws[_-]?secret[_-]?access[_-]?key)\\s*[=:]\\s*['\"]?[a-zA-Z0-9_+/=]\x7b20,\x7d['\"]?",
         "(?:private[_-]?key|privatekey)\\s*[=:]\\s*['\"]?-----BEGIN",
         "(?:mongodb|postgres|mysql|redis)://[^:]+:[^@]+@",
         "(?:ghp_|gho_|ghu_|ghs_|ghr_)[a-zA-Z0-9]\x7b36\x7d",
         "(?:xox[baprs]-)[a-zA-Z0-9-]\x7b10,\x7d",
         "sk_[a-zA-Z0-9]\x7b32,\x7d",
         "pk_[a-zA-Z0-9]\x7b32,\x7d"]⟩,
    ⟨"large-migration-default", "Large Migration Warning",
      some "Warns on database migrations larger than 100 lines",
      true, Severity.warn,
      RuleConfig.largeMigration 100
        ["migrations?/.*\\.(sql|ts|js)$", ".*migration.*\\.(sql|ts|js)$",
         "schema\\.(sql|ts|js)$"]⟩ ]

/-- `createDefaultPolicy`. -/
def createDefaultPolicy (projectId : Option String) (now : String) : Policy :=
  createPolicy
    (match projectId with
     | some p => "default-" ++ p
     | none => "default")
    "Default Neurcode Policy" defaultRules
    (some "Default policy with built-in security and quality rules") "1.0.0" now

/-- `ruleMap.set(rule.id, rule)` on the insertion-ordered map, modelled as a
list unique in ids: replace in place when the id is present, else append. -/
def upsertRule (acc : List Rule) (r : Rule) : List Rule :=
  if acc.any (fun x => decide (x.id = r.id)) then
    acc.map (fun x => if x.id = r.id then r else x)
  else acc ++ [r]

/-- The rule map built by `mergePolicies`, in insertion order. -/
def mergedRules (ps : List Policy) : List Rule :=
  ps.foldl (fun m pol => pol.rules.foldl upsertRule m) []

/-- `mergePolicies`. -/
def mergePolicies (now : String) (policies : List Policy) : Policy :=
  match policies with
  | [] => createDefaultPolicy none now
  | p :: _ => { p with rules := mergedRules policies, updatedAt := some now }

/-- Ids of a rule list. -/
def idsOf (rs : List Rule) : List String :=
  rs.map Rule.id

/-- First rule of the list carrying the given id. -/
def findId : List Rule → String → Option Rule
  | [], _ => none
  | r :: rs, i => if r.id = i then some r else findId rs i

/-- Last rule of the list carrying the given id. -/
def lastOcc : List Rule → String → Option Rule
  | [], _ => none
  | r :: rs, i =>
    match lastOcc rs i with
    | some x => some x
    | none => if r.id = i then some r else none

/-- First-seen-order deduplication of a list of ids. -/
def dedupFirst (l : List String) : List String :=
  l.foldl (fun acc s => if s ∈ acc then acc else acc ++ [s]) []

/-! ## Theorems about the diff parser -/

/-- A line that is not a file header leaves the initial (all-closed) parser
state unchanged. -/
lemma step_closed (line : Line) (h : startsWithL "diff --git" line = false) :
    step ⟨[], none, none⟩ line = ⟨[], none, none⟩ := by
  unfold step flushHunkAlias
  rw [h]
  simp only [Bool.false_eq_true, if_false]
  split_ifs <;> try rfl
  cases hp : parseHunkHeader line <;> simp

/-- Running the loop over lines none of which is a file header keeps the
initial state. -/
lemma foldl_closed (lines : List Line)
    (h : ∀ l ∈ lines, startsWithL "diff --git" l = false) :
    lines.foldl step ⟨[], none, none⟩ = ⟨[], none, none⟩ := by
  induction lines with
  | nil => rfl
  | cons l ls ih =>
    rw [List.foldl_cons, step_closed l (h l (by simp))]
    exact ih (fun x hx => h x (by simp [hx]))

/-- C6: `parseDiff` is total by construction (it is a plain function on
strings, mirroring a source that only splits, tests prefixes and matches),
and on any input none of whose lines starts with `diff --git` it returns
the empty list. -/
theorem parseDiff_no_marker (s : String)
    (h : ∀ l ∈ splitLines s.toList, startsWithL "diff --git" l = false) :
    parseDiff s = [] := by
  unfold parseDiff
  rw [foldl_closed _ h]
  rfl

/-- Witness for C6: arbitrary prose with no diff marker parses to `[]`. -/
theorem parseDiff_no_marker_witness :
    parseDiff "hello world\nno markers here" = [] :=
  parseDiff_no_marker "hello world\nno markers here" (by decide)

/-- C3: the conservation invariant fails on malformed input.  On this input
the unrecognized line `@@ x` pushes the open hunk into the file without
closing it, and end-of-input pushes the same hunk again, so the single file
returned reports `addedLines = 1` while its hunks hold 2 added-kind lines. -/
theorem parseDiff_conservation_violated :
    ((parseDiff "diff --git a/x b/y\n@@ -1 +1 @@\n+z\n@@ x").map
      (fun f => (f.addedLines, countAdded f))) = [(1, 2)] := by
  decide

/-- C4: a `+` line that follows an unrecognized `@@` header is not ignored.
The invalid header `@@ oops` flushes the open hunk but leaves it open, so the
subsequent `+z` is recorded in it (and the hunk is later flushed a second
time), contradicting the claim that such lines are recorded in no hunk. -/
theorem parseDiff_invalid_hunk_header_keeps_recording :
    parseDiff "diff --git a/x b/y\n@@ -1 +1 @@\n@@ oops\n+z" =
      [⟨"y", some "x", ChangeType.rename, 1, 0,
        [⟨1, 0, 1, 0, [⟨LineType.added, "z"⟩]⟩,
         ⟨1, 0, 1, 0, [⟨LineType.added, "z"⟩]⟩]⟩] := by
  decide

/-- C5: a file header reached while a file is open WITHOUT an open hunk
drops the open file instead of appending it: parsing two consecutive
`diff --git` headers returns only the second file. -/
theorem parseDiff_header_drops_hunkless_file :
    parseDiff "diff --git a/x b/y\ndiff --git a/p b/q" =
      [⟨"q", some "p", ChangeType.rename, 0, 0, []⟩] := by
  decide

/-! ## Theorems about the rule evaluator -/

/-- An enabled sensitive-file rule whose single pattern is the invalid
regular expression `(`. -/
def invalidPatternRule : Rule :=
  ⟨"sensitive-files", "Sensitive File Detection", none, true, Severity.block,
    RuleConfig.sensitiveFile ["("]⟩

/-- A plain one-file change set. -/
def sampleFile : DiffFile :=
  ⟨"src/app.ts", none, ChangeType.modify, 0, 0, []⟩

/-- C1: against any regex engine on which the pattern `(` fails to compile,
`evaluateRules` does NOT return normally on a policy containing that rule:
the SyntaxError thrown by `new RegExp` propagates out of the evaluation
instead of the invalid rule being skipped. -/
theorem evaluateRules_invalid_pattern_aborts (e : RegexEngine)
    (h : e.compile "(" = none) :
    evaluateRules e [sampleFile] [invalidPatternRule] =
      Except.error regexCompileError := by
  simp [evaluateRules, evalAllFiles, evalRulesForFile, evaluateRule,
    invalidPatternRule, evaluateSensitiveFileRule, compileAll, h]

/-- An engine on which every pattern fails to compile. -/
def failEngine : RegexEngine := ⟨fun _ => none⟩

/-- Witness for C1 at the concrete engine `failEngine`. -/
theorem evaluateRules_invalid_pattern_aborts_witness :
    evaluateRules failEngine [sampleFile] [invalidPatternRule] =
      Except.error regexCompileError :=
  evaluateRules_invalid_pattern_aborts failEngine rfl

lemma sevIsBlock_iff (v : RuleViolation) :
    sevIsBlock v = true ↔ v.severity = Severity.block := by
  cases v with
  | mk r f s m li c => cases s <;> simp [sevIsBlock]

lemma sevIsWarn_iff (v : RuleViolation) :
    sevIsWarn v = true ↔ v.severity = Severity.warn := by
  cases v with
  | mk r f s m li c => cases s <;> simp [sevIsWarn]

/-- The decision reduction, characterised by the violations list. -/
lemma mkDecision_spec (vs : List RuleViolation) :
    (mkDecision vs = Decision.block ↔ ∃ v ∈ vs, v.severity = Severity.block) ∧
    (mkDecision vs = Decision.warn ↔
      (∃ v ∈ vs, v.severity = Severity.warn) ∧
        ¬ ∃ v ∈ vs, v.severity = Severity.block) ∧
    (mkDecision vs = Decision.allow ↔
      ¬ ∃ v ∈ vs, (v.severity = Severity.block ∨ v.severity = Severity.warn)) := by
  have hb : vs.any sevIsBlock = true ↔ ∃ v ∈ vs, v.severity = Severity.block := by
    simp [List.any_eq_true, sevIsBlock_iff]
  have hw : vs.any sevIsWarn = true ↔ ∃ v ∈ vs, v.severity = Severity.warn := by
    simp [List.any_eq_true, sevIsWarn_iff]
  unfold mkDecision
  by_cases h1 : vs.any sevIsBlock = true
  · obtain ⟨v0, hv0, hb0⟩ := hb.mp h1
    rw [if_pos h1]
    refine ⟨⟨fun _ => ⟨v0, hv0, hb0⟩, fun _ => rfl⟩, ?_, ?_⟩
    · constructor
      · intro hx
        exact absurd hx (by simp)
      · intro hx
        exact absurd ⟨v0, hv0, hb0⟩ hx.2
    · constructor
      · intro hx
        exact absurd hx (by simp)
      · intro hx
        exact absurd ⟨v0, hv0, Or.inl hb0⟩ hx
  · have hnb : ¬ ∃ v ∈ vs, v.severity = Severity.block := fun hx => h1 (hb.mpr hx)
    rw [if_neg h1]
    by_cases h2 : vs.any sevIsWarn = true
    · obtain ⟨w0, hw0, hw1⟩ := hw.mp h2
      rw [if_pos h2]
      refine ⟨?_, ⟨fun _ => ⟨⟨w0, hw0, hw1⟩, hnb⟩, fun _ => rfl⟩, ?_⟩
      · constructor
        · intro hx
          exact absurd hx (by simp)
        · intro hx
          exact absurd hx hnb
      · constructor
        · intro hx
          exact absurd hx (by simp)
        · intro hx
          exact absurd ⟨w0, hw0, Or.inr hw1⟩ hx
    · have hnw : ¬ ∃ v ∈ vs, v.severity = Severity.warn := fun hx => h2 (hw.mpr hx)
      rw [if_neg h2]
      refine ⟨?_, ?_, ⟨fun _ => ?_, fun _ => rfl⟩⟩
      · constructor
        · intro hx
          exact absurd hx (by simp)
        · intro hx
          exact absurd hx hnb
      · constructor
        · intro hx
          exact absurd hx (by simp)
        · intro hx
          exact absurd hx.1 hnw
      · rintro ⟨v, hv, hor⟩
        cases hor with
        | inl hc => exact hnb ⟨v, hv, hc⟩
        | inr hc => exact hnw ⟨v, hv, hc⟩

/-- C2: whenever `evaluateRules` returns normally, the decision is exactly
`block` iff some collected violation (from any file) has severity `block`,
else exactly `warn` iff some violation has severity `warn`, else `allow`. -/
theorem evaluateRules_decision_spec (e : RegexEngine) (files : List DiffFile)
    (rules : List Rule) (res : RuleResult)
    (h : evaluateRules e files rules = Except.ok res) :
    (res.decision = Decision.block ↔
      ∃ v ∈ res.violations, v.severity = Severity.block) ∧
    (res.decision = Decision.warn ↔
      (∃ v ∈ res.violations, v.severity = Severity.warn) ∧
        ¬ ∃ v ∈ res.violations, v.severity = Severity.block) ∧
    (res.decision = Decision.allow ↔
      ¬ ∃ v ∈ res.violations,
        (v.severity = Severity.block ∨ v.severity = Severity.warn)) := by
  unfold evaluateRules at h
  cases hv : evalAllFiles e rules files with
  | error msg => rw [hv] at h; cases h
  | ok vs =>
    rw [hv] at h
    cases h
    exact mkDecision_spec vs

/-- Witness for C2 at a concrete evaluation (empty file and rule lists). -/
theorem evaluateRules_decision_spec_witness :
    (RuleResult.decision ⟨Decision.allow, []⟩ = Decision.block ↔
      ∃ v ∈ RuleResult.violations ⟨Decision.allow, []⟩,
        v.severity = Severity.block) ∧
    (RuleResult.decision ⟨Decision.allow, []⟩ = Decision.warn ↔
      (∃ v ∈ RuleResult.violations ⟨Decision.allow, []⟩,
        v.severity = Severity.warn) ∧
        ¬ ∃ v ∈ RuleResult.violations ⟨Decision.allow, []⟩,
          v.severity = Severity.block) ∧
    (RuleResult.decision ⟨Decision.allow, []⟩ = Decision.allow ↔
      ¬ ∃ v ∈ RuleResult.violations ⟨Decision.allow, []⟩,
        (v.severity = Severity.block ∨ v.severity = Severity.warn)) :=
  evaluateRules_decision_spec failEngine [] [] ⟨Decision.allow, []⟩ rfl

/-- Each matcher body is an if-then-else between one violation and none. -/
lemma iteOkLen (c : Prop) [Decidable c] (x : RuleViolation) (vs : List RuleViolation)
    (h : (if c then Except.ok (ε := String) [x] else Except.ok []) = Except.ok vs) :
    vs.length ≤ 1 := by
  by_cases hc : c
  · rw [if_pos hc] at h
    injection h with h'
    rw [← h']
    simp
  · rw [if_neg hc] at h
    injection h with h'
    rw [← h']
    simp

lemma lenSensitive (e : RegexEngine) (rule : Rule) (ps : List String)
    (f : DiffFile) (vs : List RuleViolation)
    (h : evaluateSensitiveFileRule e rule ps f = Except.ok vs) : vs.length ≤ 1 := by
  unfold evaluateSensitiveFileRule at h
  cases hc : compileAll e ps with
  | error msg => rw [hc] at h; cases h
  | ok ms =>
    rw [hc] at h
    exact iteOkLen _ _ _ h

lemma lenLargeChange (rule : Rule) (t : Nat) (f : DiffFile) (vs : List RuleViolation)
    (h : evaluateLargeChangeRule rule t f = Except.ok vs) : vs.length ≤ 1 := by
  unfold evaluateLargeChangeRule at h
  exact iteOkLen _ _ _ h

lemma lenKeywords (rule : Rule) (ks : List String) (f : DiffFile)
    (vs : List RuleViolation)
    (h : evaluateSuspiciousKeywordsRule rule ks f = Except.ok vs) : vs.length ≤ 1 := by
  simp only [evaluateSuspiciousKeywordsRule] at h
  exact iteOkLen _ _ _ h

lemma lenSecret (e : RegexEngine) (rule : Rule) (ps : List String) (f : DiffFile)
    (vs : List RuleViolation)
    (h : evaluatePotentialSecretRule e rule ps f = Except.ok vs) : vs.length ≤ 1 := by
  unfold evaluatePotentialSecretRule at h
  cases hc : compileAll e ps with
  | error msg => rw [hc] at h; cases h
  | ok ms =>
    rw [hc] at h
    exact iteOkLen _ _ _ h

lemma lenMigration (e : RegexEngine) (rule : Rule) (t : Nat) (mp : List String)
    (f : DiffFile) (vs : List RuleViolation)
    (h : evaluateLargeMigrationRule e rule t mp f = Except.ok vs) : vs.length ≤ 1 := by
  unfold evaluateLargeMigrationRule at h
  cases hc : compileAll e mp with
  | error msg => rw [hc] at h; cases h
  | ok ms =>
    rw [hc] at h
    dsimp only at h
    by_cases houter : (ms.any fun m => m f.path) = true
    · rw [if_pos houter] at h
      exact iteOkLen _ _ _ h
    · rw [if_neg houter] at h
      injection h with h'
      rw [← h']
      simp

lemma lenPathPattern (e : RegexEngine) (rule : Rule) (p : String)
    (mt : PathMatchType) (f : DiffFile) (vs : List RuleViolation)
    (h : evaluatePathPatternRule e rule p mt f = Except.ok vs) : vs.length ≤ 1 := by
  unfold evaluatePathPatternRule at h
  cases hc : e.compile p with
  | none => rw [hc] at h; cases h
  | some m =>
    rw [hc] at h
    exact iteOkLen _ _ _ h

lemma lenLinePattern (e : RegexEngine) (rule : Rule) (p : String)
    (mt : LineMatchType) (f : DiffFile) (vs : List RuleViolation)
    (h : evaluateLinePatternRule e rule p mt f = Except.ok vs) : vs.length ≤ 1 := by
  unfold evaluateLinePatternRule at h
  cases hc : e.compile p with
  | none => rw [hc] at h; cases h
  | some m =>
    rw [hc] at h
    exact iteOkLen _ _ _ h

lemma lenFileSize (rule : Rule) (s : Nat) (f : DiffFile) (vs : List RuleViolation)
    (h : evaluateFileSizeRule rule s f = Except.ok vs) : vs.length ≤ 1 := by
  simp only [evaluateFileSizeRule] at h
  exact iteOkLen _ _ _ h

/-- C7: one rule applied to one file yields at most one violation, whatever
the number of individual matches inside the file. -/
theorem evaluateRule_at_most_one (e : RegexEngine) (r : Rule) (f : DiffFile)
    (vs : List RuleViolation) (h : evaluateRule e r f = Except.ok vs) :
    vs.length ≤ 1 := by
  unfold evaluateRule at h
  cases he : r.enabled with
  | false =>
    rw [he] at h
    simp only [Bool.not_false, if_true] at h
    cases h; simp
  | true =>
    rw [he] at h
    simp only [Bool.not_true, Bool.false_eq_true, if_false] at h
    cases hc : r.config with
    | sensitiveFile ps => rw [hc] at h; exact lenSensitive e r ps f vs h
    | largeChange t => rw [hc] at h; exact lenLargeChange r t f vs h
    | suspiciousKeywords ks => rw [hc] at h; exact lenKeywords r ks f vs h
    | potentialSecret ps => rw [hc] at h; exact lenSecret e r ps f vs h
    | largeMigration t mp => rw [hc] at h; exact lenMigration e r t mp f vs h
    | pathPattern p mt => rw [hc] at h; exact lenPathPattern e r p mt f vs h
    | linePattern p mt => rw [hc] at h; exact lenLinePattern e r p mt f vs h
    | fileSize s => rw [hc] at h; exact lenFileSize r s f vs h
    | custom ev k => rw [hc] at h; cases h; simp

/-- The default large-change rule shape, for the C7 witness. -/
def largeChangeSample : Rule :=
  ⟨"large-change-default", "Large Change Warning", none, true, Severity.warn,
    RuleConfig.largeChange 1000⟩

/-- A 1700-line change, for the C7 witness. -/
def bigChangeFile : DiffFile :=
  ⟨"large.js", none, ChangeType.modify, 1500, 200, []⟩

/-- Witness for C7: the concrete evaluation yields exactly one violation. -/
theorem evaluateRule_at_most_one_witness :
    ([⟨"large-change-default", "large.js", Severity.warn,
        some "Large change detected: 1700 lines modified (threshold: 1000)",
        none, none⟩] : List RuleViolation).length ≤ 1 :=
  evaluateRule_at_most_one failEngine largeChangeSample bigChangeFile _ rfl

lemma evaluateRule_custom (e : RegexEngine) (i n : String) (d : Option String)
    (en : Bool) (sv : Severity) (ev : String) (k : List (String × String))
    (f : DiffFile) :
    evaluateRule e ⟨i, n, d, en, sv, RuleConfig.custom ev k⟩ f = Except.ok [] := by
  cases en <;> rfl

lemma evalRulesForFile_skip (e : RegexEngine) (f : DiffFile) (r2 : List Rule)
    (c : Rule) (hc : evaluateRule e c f = Except.ok []) (r1 : List Rule) :
    evalRulesForFile e f (r1 ++ c :: r2) = evalRulesForFile e f (r1 ++ r2) := by
  induction r1 with
  | nil =>
    simp only [List.nil_append, evalRulesForFile, hc]
    cases hr : evalRulesForFile e f r2 <;> simp
  | cons x r1 ih =>
    simp only [List.cons_append, evalRulesForFile, List.append_eq]
    rw [ih]

lemma evalAllFiles_congr (e : RegexEngine) (rs1 rs2 : List Rule)
    (h : ∀ f, evalRulesForFile e f rs1 = evalRulesForFile e f rs2) :
    ∀ fs, evalAllFiles e rs1 fs = evalAllFiles e rs2 fs := by
  intro fs
  induction fs with
  | nil => rfl
  | cons f fs ih =>
    simp only [evalAllFiles]
    rw [h f, ih]

/-- C10: inserting an (even enabled) custom-kind rule anywhere in the rule
list changes nothing about `evaluateRules` — it contributes no violations,
raises nothing, and leaves the decision as it was. -/
theorem evaluateRules_custom_rule_noop (e : RegexEngine) (files : List DiffFile)
    (r1 r2 : List Rule) (i n : String) (d : Option String) (en : Bool)
    (sv : Severity) (ev : String) (k : List (String × String)) :
    evaluateRules e files (r1 ++ ⟨i, n, d, en, sv, RuleConfig.custom ev k⟩ :: r2) =
      evaluateRules e files (r1 ++ r2) := by
  unfold evaluateRules
  rw [evalAllFiles_congr e (r1 ++ ⟨i, n, d, en, sv, RuleConfig.custom ev k⟩ :: r2)
    (r1 ++ r2)
    (fun f => evalRulesForFile_skip e f r2 _ (evaluateRule_custom e i n d en sv ev k f) r1)
    files]


/-! ## Theorems about policy management -/

/-- The policy document of the C9 counterexample: every required field is
present, but the id is the empty string. -/
def allPresentEmptyId : RawPolicyDoc :=
  ⟨some "", some "Team Policy", none, some "1.0.0", some (RawRules.arr []), none, none⟩

/-- C9 counterexample: a document whose id, name and version are all present
and whose rules field is an array is still rejected by `loadPolicy`, because
the present-but-empty id string is falsy. -/
theorem loadPolicy_empty_id_rejected :
    allPresentEmptyId.id.isSome = true ∧ allPresentEmptyId.name.isSome = true ∧
    allPresentEmptyId.version.isSome = true ∧
    isArrayField allPresentEmptyId.rules = true ∧
    loadPolicy allPresentEmptyId =
      Except.error "Invalid policy format: missing required fields" :=
  ⟨rfl, rfl, rfl, rfl, rfl⟩

/-- C9 (amended): `loadPolicy` raises the format error exactly when the id,
name or version field is missing or truthiness-empty, or the rules field is
not an array; otherwise it returns the document as a `Policy`. -/
theorem loadPolicy_truthy_spec (doc : RawPolicyDoc) :
    (loadPolicy doc = Except.error "Invalid policy format: missing required fields" ↔
      (truthyStr doc.id = false ∨ truthyStr doc.name = false ∨
        truthyStr doc.version = false ∨ isArrayField doc.rules = false)) ∧
    (loadPolicy doc = Except.ok (docToPolicy doc) ↔
      (truthyStr doc.id = true ∧ truthyStr doc.name = true ∧
        truthyStr doc.version = true ∧ isArrayField doc.rules = true)) := by
  cases hid : truthyStr doc.id <;> cases hn : truthyStr doc.name <;>
    cases hv : truthyStr doc.version <;> cases hr : isArrayField doc.rules <;>
    simp [loadPolicy, hid, hn, hv, hr]

lemma any_id_eq_mem (m : List Rule) (i : String) :
    (m.any fun x => decide (x.id = i)) = true ↔ i ∈ idsOf m := by
  rw [List.any_eq_true]
  constructor
  · rintro ⟨x, hx, hdx⟩
    have hxi : x.id = i := of_decide_eq_true hdx
    exact hxi ▸ List.mem_map_of_mem Rule.id hx
  · intro hmem
    obtain ⟨x, hx, hxi⟩ := List.mem_map.mp hmem
    exact ⟨x, hx, decide_eq_true hxi⟩

lemma idsOf_append (l1 l2 : List Rule) : idsOf (l1 ++ l2) = idsOf l1 ++ idsOf l2 := by
  simp [idsOf]

lemma idsOf_upsert (m : List Rule) (r : Rule) :
    idsOf (upsertRule m r) = if r.id ∈ idsOf m then idsOf m else idsOf m ++ [r.id] := by
  unfold upsertRule
  by_cases hm : r.id ∈ idsOf m
  · rw [if_pos ((any_id_eq_mem m r.id).mpr hm), if_pos hm]
    unfold idsOf
    rw [List.map_map]
    apply List.map_congr_left
    intro x hx
    simp only [Function.comp_apply]
    by_cases hxi : x.id = r.id
    · rw [if_pos hxi, hxi]
    · rw [if_neg hxi]
  · rw [if_neg (fun hc => hm ((any_id_eq_mem m r.id).mp hc)), if_neg hm]
    simp [idsOf]

lemma dedupFirst_concat (l : List String) (a : String) :
    dedupFirst (l ++ [a]) =
      if a ∈ dedupFirst l then dedupFirst l else dedupFirst l ++ [a] := by
  unfold dedupFirst
  rw [List.foldl_append]
  rfl

lemma dedupFirst_nodup_aux (l : List String) :
    ∀ acc : List String, acc.Nodup →
      (l.foldl (fun acc s => if s ∈ acc then acc else acc ++ [s]) acc).Nodup := by
  induction l with
  | nil => exact fun acc h => h
  | cons s ss ih =>
    intro acc h
    rw [List.foldl_cons]
    by_cases hs : s ∈ acc
    · rw [if_pos hs]
      exact ih acc h
    · rw [if_neg hs]
      exact ih _ (by simp [List.nodup_append, h, hs])

lemma dedupFirst_nodup (l : List String) : (dedupFirst l).Nodup :=
  dedupFirst_nodup_aux l [] List.nodup_nil

lemma findId_eq_none (m : List Rule) (i : String) (h : i ∉ idsOf m) :
    findId m i = none := by
  induction m with
  | nil => rfl
  | cons r rs ih =>
    simp only [idsOf, List.map_cons, List.mem_cons, not_or] at h
    unfold findId
    rw [if_neg (fun hc => h.1 hc.symm)]
    exact ih h.2

lemma findId_append (l1 l2 : List Rule) (i : String) :
    findId (l1 ++ l2) i =
      match findId l1 i with
      | some x => some x
      | none => findId l2 i := by
  induction l1 with
  | nil => rfl
  | cons r rs ih =>
    by_cases h : r.id = i
    · simp only [List.cons_append, findId, if_pos h]
    · simp only [List.cons_append, findId, if_neg h, List.append_eq, ih]

lemma findId_replace_self (m : List Rule) (r : Rule) (h : r.id ∈ idsOf m) :
    findId (m.map fun x => if x.id = r.id then r else x) r.id = some r := by
  induction m with
  | nil => simp [idsOf] at h
  | cons x xs ih =>
    rw [List.map_cons]
    by_cases hx : x.id = r.id
    · rw [if_pos hx]
      unfold findId
      rw [if_pos rfl]
    · rw [if_neg hx]
      unfold findId
      rw [if_neg hx]
      apply ih
      simp only [idsOf, List.map_cons, List.mem_cons] at h
      rcases h with h | h
      · exact absurd h.symm hx
      · exact h

lemma findId_replace_other (m : List Rule) (r : Rule) (i : String) (h : ¬ (i = r.id)) :
    findId (m.map fun x => if x.id = r.id then r else x) i = findId m i := by
  induction m with
  | nil => rfl
  | cons x xs ih =>
    rw [List.map_cons]
    by_cases hx : x.id = r.id
    · rw [if_pos hx]
      unfold findId
      rw [if_neg (fun hc : r.id = i => h hc.symm),
        if_neg (fun hc : x.id = i => h (by rw [← hc]; exact hx))]
      exact ih
    · rw [if_neg hx]
      unfold findId
      by_cases hxi : x.id = i
      · rw [if_pos hxi, if_pos hxi]
      · rw [if_neg hxi, if_neg hxi]
        exact ih

lemma lastOcc_concat (l : List Rule) (r : Rule) (i : String) :
    lastOcc (l ++ [r]) i = if r.id = i then some r else lastOcc l i := by
  induction l with
  | nil => rfl
  | cons x xs ih =>
    show lastOcc (x :: (xs ++ [r])) i = _
    unfold lastOcc
    rw [ih]
    by_cases hr : r.id = i
    · rw [if_pos hr, if_pos hr]
    · rw [if_neg hr, if_neg hr]

lemma findId_upsert (m : List Rule) (r : Rule) (i : String) :
    findId (upsertRule m r) i = if r.id = i then some r else findId m i := by
  unfold upsertRule
  by_cases hp : (m.any fun x => decide (x.id = r.id)) = true
  · rw [if_pos hp]
    by_cases hi : r.id = i
    · subst hi
      rw [findId_replace_self m r ((any_id_eq_mem m r.id).mp hp), if_pos rfl]
    · rw [findId_replace_other m r i (fun hc => hi hc.symm), if_neg hi]
  · rw [if_neg hp]
    have hnmem : r.id ∉ idsOf m := fun hc => hp ((any_id_eq_mem m r.id).mpr hc)
    rw [findId_append]
    by_cases hi : r.id = i
    · subst hi
      rw [findId_eq_none m r.id hnmem, if_pos rfl]
      unfold findId
      rw [if_pos rfl]
    · rw [if_neg hi]
      cases hf : findId m i with
      | some x => rfl
      | none =>
        unfold findId
        rw [if_neg hi]
        rfl

lemma mergedFold_spec (rs : List Rule) :
    idsOf (rs.foldl upsertRule []) = dedupFirst (idsOf rs) ∧
    ∀ i, findId (rs.foldl upsertRule []) i = lastOcc rs i := by
  induction rs using List.reverseRecOn with
  | nil => exact ⟨rfl, fun i => rfl⟩
  | append_singleton rs r ih =>
    obtain ⟨ih1, ih2⟩ := ih
    have hfold : (rs ++ [r]).foldl upsertRule [] = upsertRule (rs.foldl upsertRule []) r := by
      rw [List.foldl_append]
      rfl
    constructor
    · have hids : idsOf (rs ++ [r]) = idsOf rs ++ [r.id] := by simp [idsOf]
      rw [hfold, idsOf_upsert, ih1, hids, dedupFirst_concat]
    · intro i
      rw [hfold, lastOcc_concat, findId_upsert, ih2 i]

lemma mergedRules_eq_foldl (ps : List Policy) :
    mergedRules ps = ((ps.map Policy.rules).join).foldl upsertRule [] := by
  suffices h : ∀ init, ps.foldl (fun m pol => pol.rules.foldl upsertRule m) init =
      ((ps.map Policy.rules).join).foldl upsertRule init by
    exact h []
  induction ps with
  | nil => intro init; rfl
  | cons p ps ih =>
    intro init
    simp only [List.foldl_cons, List.map_cons, List.flatten_cons, List.foldl_append]
    exact ih _

/-- C8: merging policies keys rules by id in argument order.  The merged
metadata comes from the first policy; the merged rule ids are the argument
rules' ids in first-seen order without duplicates; looking up any id in the
merged rules finds exactly the LAST rule with that id across the argument
policies in order; and merging zero policies yields the default policy. -/
theorem mergePolicies_spec (now : String) (p : Policy) (ps : List Policy) (i : String) :
    (mergePolicies now (p :: ps)).id = p.id ∧
    (mergePolicies now (p :: ps)).name = p.name ∧
    (mergePolicies now (p :: ps)).description = p.description ∧
    (mergePolicies now (p :: ps)).version = p.version ∧
    idsOf (mergePolicies now (p :: ps)).rules =
      dedupFirst (idsOf (((p :: ps).map Policy.rules).join)) ∧
    (idsOf (mergePolicies now (p :: ps)).rules).Nodup ∧
    findId (mergePolicies now (p :: ps)).rules i =
      lastOcc (((p :: ps).map Policy.rules).join) i ∧
    mergePolicies now [] = createDefaultPolicy none now := by
  have hm := mergedFold_spec (((p :: ps).map Policy.rules).join)
  have hrules : (mergePolicies now (p :: ps)).rules =
      (((p :: ps).map Policy.rules).join).foldl upsertRule [] := by
    show mergedRules (p :: ps) = _
    exact mergedRules_eq_foldl (p :: ps)
  refine ⟨rfl, rfl, rfl, rfl, ?_, ?_, ?_, rfl⟩
  · rw [hrules, hm.1]
  · rw [hrules, hm.1]
    exact dedupFirst_nodup _
  · rw [hrules, hm.2 i]

end Neurcode

